import Mathlib

/-!
Verification development for the sign-bound crate (src/lib.rs).

The crate provides wrapper types `PositiveI{8,16,32,64,size}` and
`NegativeI{8,16,32,64,size}` over the signed primitive of width `w` bits.
A positive value is a primitive value `v` with `0 ≤ v ≤ 2^(w-1) - 1`;
a negative value is a primitive value `v` with `-2^(w-1) ≤ v < 0`.

Shallow embedding conventions:
* a wrapped value is represented by the primitive value it stores
  (`transmute` in `new_unchecked` / `get` is the identity on that value,
  so `new_unchecked` is modelled as the identity and `get` as the identity);
* the polarity invariants become the predicates `posValid` / `negValid`;
* the primitive integer type `i{w}` is modelled by `Int` together with the
  bounds `intMin w ≤ v ≤ intMax w`; the unsigned primitive `u{w}` by `Nat`
  with `v < 2 ^ w`;
* Rust's primitive arithmetic (the external collaborator of the crate) is
  modelled by the `i_*` / `u_*` functions below, with `Option` for the
  `checked_*` family and `Except Unit` for operations that can panic;
* `value as $uns` is modelled by `toUns`, `value as $base` by `ofUns`.

Widths are kept generic (`w : Nat`, with `0 < w` where a proof needs it);
the crate instantiates `w ∈ {8, 16, 32, 64, pointer width}`.
-/

/-- `i{w}::MIN`, the smallest signed primitive value of width `w`. -/
def intMin (w : Nat) : Int := -(2 ^ (w - 1))

/-- `i{w}::MAX`, the largest signed primitive value of width `w`. -/
def intMax (w : Nat) : Int := 2 ^ (w - 1) - 1

/-- `x as u{w}`: the `w`-bit unsigned reinterpretation of a signed value
(two's complement). -/
def toUns (w : Nat) (x : Int) : Nat := (x % ((2 : Int) ^ w)).toNat

/-- `n as i{w}`: the signed reinterpretation of a `w`-bit unsigned value
(two's complement). -/
def ofUns (w : Nat) (n : Nat) : Int :=
  if (n : Int) ≤ intMax w then (n : Int) else (n : Int) - 2 ^ w

/-- Reduction of an arbitrary integer to the representable range of `i{w}`,
as performed by Rust's wrapping operations (release-mode overflow). -/
def iWrap (w : Nat) (x : Int) : Int := ofUns w (toUns w x)

/-- The polarity constraint of a positive type: the stored primitive value is
`≥ 0` (and within the primitive range). -/
def posValid (w : Nat) (a : Int) : Prop := 0 ≤ a ∧ a ≤ intMax w

/-- The polarity constraint of a negative type: the stored primitive value is
`< 0` (and within the primitive range). -/
def negValid (w : Nat) (a : Int) : Prop := intMin w ≤ a ∧ a < 0

instance (w : Nat) (a : Int) : Decidable (posValid w a) :=
  inferInstanceAs (Decidable (0 ≤ a ∧ a ≤ intMax w))

instance (w : Nat) (a : Int) : Decidable (negValid w a) :=
  inferInstanceAs (Decidable (intMin w ≤ a ∧ a < 0))

/-- Validity of an optional positive result: if a value is produced, it
satisfies the positive polarity constraint. -/
def optPosValid (w : Nat) : Option Int → Prop
  | some v => posValid w v
  | none => True

/-- Validity of an optional negative result. -/
def optNegValid (w : Nat) : Option Int → Prop
  | some v => negValid w v
  | none => True

instance (w : Nat) (o : Option Int) : Decidable (optPosValid w o) :=
  match o with
  | some v => inferInstanceAs (Decidable (posValid w v))
  | none => isTrue trivial

instance (w : Nat) (o : Option Int) : Decidable (optNegValid w o) :=
  match o with
  | some v => inferInstanceAs (Decidable (negValid w v))
  | none => isTrue trivial

/-! ### The primitive integer operations (Rust core, spec §6 collaborator)

`i{w}::checked_*` returns `none` exactly when the mathematical result leaves
`[intMin w, intMax w]` (or on division by zero, or on `MIN / -1`).
`i{w}::saturating_*` clamps the mathematical result into the range.
`i{w}::rem_euclid` panics (modelled by `Except.error ()`) on a zero divisor
and on `MIN.rem_euclid(-1)` (overflow of the intermediate `MIN % -1`).
Rust `/` truncates toward zero (`Int.tdiv`), `%` is the truncated remainder
(`Int.tmod`), `div_euclid`/`rem_euclid` are Euclidean (`Int.ediv`/`%ᵉ`,
i.e. Lean's `/` and `%` on `Int`). -/

/-- Clamp into the representable range of `i{w}` (saturating behaviour). -/
def i_clamp (w : Nat) (x : Int) : Int :=
  if x < intMin w then intMin w else if intMax w < x then intMax w else x

/-- `i{w}::checked_add`. -/
def i_checked_add (w : Nat) (a b : Int) : Option Int :=
  if intMin w ≤ a + b ∧ a + b ≤ intMax w then some (a + b) else none

/-- `i{w}::checked_sub`. -/
def i_checked_sub (w : Nat) (a b : Int) : Option Int :=
  if intMin w ≤ a - b ∧ a - b ≤ intMax w then some (a - b) else none

/-- `i{w}::checked_mul`. -/
def i_checked_mul (w : Nat) (a b : Int) : Option Int :=
  if intMin w ≤ a * b ∧ a * b ≤ intMax w then some (a * b) else none

/-- `i{w}::checked_div` (truncated division; `none` on a zero divisor and on
`MIN / -1`). -/
def i_checked_div (w : Nat) (a b : Int) : Option Int :=
  if b = 0 then none
  else if a = intMin w ∧ b = -1 then none
  else some (a.tdiv b)

/-- `i{w}::checked_rem`. -/
def i_checked_rem (w : Nat) (a b : Int) : Option Int :=
  if b = 0 then none
  else if a = intMin w ∧ b = -1 then none
  else some (Int.tmod a b)

/-- `i{w}::checked_div_euclid`. -/
def i_checked_div_euclid (w : Nat) (a b : Int) : Option Int :=
  if b = 0 then none
  else if a = intMin w ∧ b = -1 then none
  else some (a / b)

/-- `i{w}::checked_neg`. -/
def i_checked_neg (w : Nat) (a : Int) : Option Int :=
  if a = intMin w then none else some (-a)

/-- `i{w}::checked_abs`. -/
def i_checked_abs (w : Nat) (a : Int) : Option Int :=
  if a = intMin w then none else some (if a < 0 then -a else a)

/-- `i{w}::checked_pow`. Rust computes it by squaring with `checked_mul` at
each step; for a non-negative base (the only way the crate calls it) an
intermediate product overflows exactly when the final power does, so the
single final range check is an exact model on all reachable inputs. -/
def i_checked_pow (w : Nat) (a : Int) (e : Nat) : Option Int :=
  if intMin w ≤ a ^ e ∧ a ^ e ≤ intMax w then some (a ^ e) else none

/-- `i{w}::saturating_add`. -/
def i_saturating_add (w : Nat) (a b : Int) : Int := i_clamp w (a + b)

/-- `i{w}::saturating_mul`. -/
def i_saturating_mul (w : Nat) (a b : Int) : Int := i_clamp w (a * b)

/-- `i{w}::saturating_pow` (see `i_checked_pow` for why the clamp of the
mathematical power is exact). -/
def i_saturating_pow (w : Nat) (a : Int) (e : Nat) : Int := i_clamp w (a ^ e)

/-- `i{w}::saturating_abs`. -/
def i_saturating_abs (w : Nat) (a : Int) : Int :=
  if a = intMin w then intMax w else if a < 0 then -a else a

/-- `i{w}::saturating_neg`. -/
def i_saturating_neg (w : Nat) (a : Int) : Int :=
  if a = intMin w then intMax w else -a

/-- `i{w}::rem_euclid`: panics on a zero divisor and on `(MIN, -1)`;
otherwise the non-negative Euclidean remainder. -/
def i_rem_euclid (w : Nat) (a b : Int) : Except Unit Int :=
  if b = 0 then Except.error ()
  else if a = intMin w ∧ b = -1 then Except.error ()
  else Except.ok (a % b)

/-- The primitive subtraction operator `-` as it behaves in release builds
(wrapping on overflow; the crate only reaches it on non-overflowing inputs). -/
def i_wrapping_sub (w : Nat) (a b : Int) : Int := iWrap w (a - b)

/-- `i{w}` bitwise AND (bit-level, via the unsigned reinterpretation). -/
def i_and (w : Nat) (a b : Int) : Int := ofUns w (toUns w a &&& toUns w b)

/-- `i{w}` bitwise OR. -/
def i_or (w : Nat) (a b : Int) : Int := ofUns w (toUns w a ||| toUns w b)

/-- `i{w}` bitwise XOR. -/
def i_xor (w : Nat) (a b : Int) : Int := ofUns w (toUns w a ^^^ toUns w b)

/-- `i{w}` bitwise NOT (complementing every bit of the `w`-bit pattern). -/
def i_not (w : Nat) (a : Int) : Int := ofUns w (2 ^ w - 1 - toUns w a)

/-- `i{w}::leading_zeros`, on the unsigned reinterpretation; `Nat.size` is
the bit length, so the count of leading zero bits is `w - size`. -/
def i_leading_zeros (w : Nat) (x : Int) : Nat := w - (toUns w x).size

/-- `u{w}::checked_div`. -/
def u_checked_div (a b : Nat) : Option Nat := if b = 0 then none else some (a / b)

/-- `u{w}::checked_rem`. -/
def u_checked_rem (a b : Nat) : Option Nat := if b = 0 then none else some (a % b)

/-- The mathematical next power of two (`1` for `n ≤ 1`). -/
def next_power_of_two (n : Nat) : Nat :=
  if n ≤ 1 then 1 else 2 ^ (Nat.log2 (n - 1) + 1)

/-- `u{w}::next_power_of_two` as it behaves in release builds: the result is
reduced modulo `2 ^ w` (an overflowing result, which is exactly `2 ^ w`,
wraps to `0`). -/
def u_next_power_of_two (w : Nat) (n : Nat) : Nat := next_power_of_two n % 2 ^ w

/-! ### The positive wrapper type (macro `impl_positive`)

A wrapped positive value is represented by the primitive value it stores;
`new_unchecked` (a transmute) is the identity, so `Some(Self::new_unchecked(n))`
is modelled as `some n`. -/

/-- `PositiveI{w}::new`. -/
def positive_new (w : Nat) (value : Int) : Option Int :=
  if value < 0 then none else some value

/-- `PositiveI{w}::get` (transmute back to the primitive). -/
def positive_get (value : Int) : Int := value

/-- `NegativeI{w}::new`. -/
def negative_new (w : Nat) (value : Int) : Option Int :=
  if 0 ≤ value then none else some value

/-- `NegativeI{w}::get`. -/
def negative_get (value : Int) : Int := value

/-- `PositiveI{w}::MIN` (the value `0`). -/
def positive_MIN : Int := 0

/-- `PositiveI{w}::MAX` (the value `i{w}::MAX`). -/
def positive_MAX (w : Nat) : Int := intMax w

/-- `NegativeI{w}::MIN` (the value `i{w}::MIN`). -/
def negative_MIN (w : Nat) : Int := intMin w

/-- `NegativeI{w}::MAX` (the value `-1`). -/
def negative_MAX : Int := -1

/-- `Default for PositiveI{w}`: `Self::MIN`. (The crate implements `Default`
only for the positive types; `impl_negative` generates no `Default`.) -/
def positive_default : Int := positive_MIN

/-- `PositiveI{w}::checked_neg`: `$sty::new(-self.get())`. -/
def positive_checked_neg (w : Nat) (a : Int) : Option Int := negative_new w (-a)

/-- `PositiveI{w}::checked_add`. -/
def positive_checked_add (w : Nat) (a b : Int) : Option Int :=
  match i_checked_add w a b with
  | some n => some n
  | none => none

/-- `PositiveI{w}::checked_sub`: `Self::new(self.get() - rhs.get())` — an
unchecked primitive subtraction followed by validation. -/
def positive_checked_sub (w : Nat) (a b : Int) : Option Int :=
  positive_new w (i_wrapping_sub w a b)

/-- `PositiveI{w}::checked_mul`. -/
def positive_checked_mul (w : Nat) (a b : Int) : Option Int :=
  match i_checked_mul w a b with
  | some n => some n
  | none => none

/-- `PositiveI{w}::checked_div`. -/
def positive_checked_div (w : Nat) (a b : Int) : Option Int :=
  match i_checked_div w a b with
  | some n => some n
  | none => none

/-- `PositiveI{w}::checked_rem`. -/
def positive_checked_rem (w : Nat) (a b : Int) : Option Int :=
  match i_checked_rem w a b with
  | some n => some n
  | none => none

/-- `PositiveI{w}::checked_div_unsigned`:
`(self.get() as $uns).checked_div(rhs)`, result cast back with `as $base`. -/
def positive_checked_div_unsigned (w : Nat) (a : Int) (rhs : Nat) : Option Int :=
  match u_checked_div (toUns w a) rhs with
  | some n => some (ofUns w n)
  | none => none

/-- `PositiveI{w}::checked_rem_unsigned`. -/
def positive_checked_rem_unsigned (w : Nat) (a : Int) (rhs : Nat) : Option Int :=
  match u_checked_rem (toUns w a) rhs with
  | some n => some (ofUns w n)
  | none => none

/-- `PositiveI{w}::checked_pow`. -/
def positive_checked_pow (w : Nat) (a : Int) (e : Nat) : Option Int :=
  match i_checked_pow w a e with
  | some n => some n
  | none => none

/-- `PositiveI{w}::checked_next_power_of_two`:
`Self::new((self.get() as $uns).next_power_of_two() as $base)`. -/
def positive_checked_next_power_of_two (w : Nat) (a : Int) : Option Int :=
  positive_new w (ofUns w (u_next_power_of_two w (toUns w a)))

/-- `PositiveI{w}::saturating_add`. -/
def positive_saturating_add (w : Nat) (a b : Int) : Int := i_saturating_add w a b

/-- `PositiveI{w}::saturating_sub`: validate `self.get() - rhs.get()`, falling
back to `Self::MIN`. -/
def positive_saturating_sub (w : Nat) (a b : Int) : Int :=
  match positive_new w (i_wrapping_sub w a b) with
  | some n => n
  | none => positive_MIN

/-- `PositiveI{w}::saturating_mul`. -/
def positive_saturating_mul (w : Nat) (a b : Int) : Int := i_saturating_mul w a b

/-- `PositiveI{w}::saturating_pow`. -/
def positive_saturating_pow (w : Nat) (a : Int) (e : Nat) : Int := i_saturating_pow w a e

/-- `BitAnd<$base> for PositiveI{w}` (and the mirrored
`BitAnd<PositiveI{w}> for $base`): AND with an unconstrained primitive. -/
def positive_bitand_base (w : Nat) (a rhs : Int) : Int := i_and w a rhs

/-- `BitOr for PositiveI{w}` (same polarity, via `impl_bit_op`). -/
def positive_bitor (w : Nat) (a b : Int) : Int := i_or w a b

/-- `BitAnd for PositiveI{w}` (same polarity). -/
def positive_bitand (w : Nat) (a b : Int) : Int := i_and w a b

/-- `BitXor for PositiveI{w}` (same polarity). -/
def positive_bitxor (w : Nat) (a b : Int) : Int := i_xor w a b

/-- `Not for PositiveI{w}` (result is the negative sibling). -/
def positive_not (w : Nat) (a : Int) : Int := i_not w a

/-! ### The negative wrapper type (macro `impl_negative`) -/

/-- `NegativeI{w}::checked_abs` (result is the positive sibling). -/
def negative_checked_abs (w : Nat) (a : Int) : Option Int :=
  match i_checked_abs w a with
  | some n => some n
  | none => none

/-- `NegativeI{w}::checked_neg` (result is the positive sibling). -/
def negative_checked_neg (w : Nat) (a : Int) : Option Int :=
  match i_checked_neg w a with
  | some n => some n
  | none => none

/-- `NegativeI{w}::checked_add`. -/
def negative_checked_add (w : Nat) (a b : Int) : Option Int :=
  match i_checked_add w a b with
  | some n => some n
  | none => none

/-- `NegativeI{w}::checked_sub`: `Self::new(self.get() - rhs.get())`. -/
def negative_checked_sub (w : Nat) (a b : Int) : Option Int :=
  negative_new w (i_wrapping_sub w a b)

/-- `NegativeI{w}::checked_mul` (result is the positive sibling). -/
def negative_checked_mul (w : Nat) (a b : Int) : Option Int :=
  match i_checked_mul w a b with
  | some n => some n
  | none => none

/-- `NegativeI{w}::checked_mul_positive`: `Self::new` applied to the checked
product, hence `none` on `rhs == 0` as well. -/
def negative_checked_mul_positive (w : Nat) (a b : Int) : Option Int :=
  match i_checked_mul w a b with
  | some n => negative_new w n
  | none => none

/-- `NegativeI{w}::checked_div` (result is the positive sibling). -/
def negative_checked_div (w : Nat) (a b : Int) : Option Int :=
  match i_checked_div w a b with
  | some n => some n
  | none => none

/-- `NegativeI{w}::checked_div_euclid` (result is the positive sibling). -/
def negative_checked_div_euclid (w : Nat) (a b : Int) : Option Int :=
  match i_checked_div_euclid w a b with
  | some n => some n
  | none => none

/-- `NegativeI{w}::checked_rem_euclid`: the body is
`let n = self.get().rem_euclid(rhs); Some(new_unchecked(n))` — it calls the
panicking primitive directly and never produces `None` itself. -/
def negative_checked_rem_euclid (w : Nat) (a rhs : Int) : Except Unit (Option Int) :=
  match i_rem_euclid w a rhs with
  | Except.ok n => Except.ok (some n)
  | Except.error e => Except.error e

/-- `NegativeI{w}::saturating_abs` (result is the positive sibling). -/
def negative_saturating_abs (w : Nat) (a : Int) : Int := i_saturating_abs w a

/-- `NegativeI{w}::saturating_neg` (result is the positive sibling). -/
def negative_saturating_neg (w : Nat) (a : Int) : Int := i_saturating_neg w a

/-- `NegativeI{w}::saturating_add`. -/
def negative_saturating_add (w : Nat) (a b : Int) : Int := i_saturating_add w a b

/-- `NegativeI{w}::saturating_sub`: validate `self.get() - rhs.get()`, falling
back to `Self::MAX`. -/
def negative_saturating_sub (w : Nat) (a b : Int) : Int :=
  match negative_new w (i_wrapping_sub w a b) with
  | some n => n
  | none => negative_MAX

/-- `NegativeI{w}::saturating_mul` (result is the positive sibling). -/
def negative_saturating_mul (w : Nat) (a b : Int) : Int := i_saturating_mul w a b

/-- `NegativeI{w}::saturating_mul_positive`: validate the saturated product,
falling back to `Self::MAX` (i.e. `-1`, reached when `rhs == 0`). -/
def negative_saturating_mul_positive (w : Nat) (a b : Int) : Int :=
  match negative_new w (i_saturating_mul w a b) with
  | some n => n
  | none => negative_MAX

/-- `NegativeI{w}::leading_zeros`: the constant `0`, never inspecting the
stored value. -/
def negative_leading_zeros (_a : Int) : Nat := 0

/-- `BitOr<$base> for NegativeI{w}` (and the mirrored primitive-first impl):
OR with an unconstrained primitive. -/
def negative_bitor_base (w : Nat) (a rhs : Int) : Int := i_or w a rhs

/-- `BitOr for NegativeI{w}` (same polarity, via `impl_bit_op`). -/
def negative_bitor (w : Nat) (a b : Int) : Int := i_or w a b

/-- `BitAnd for NegativeI{w}` (same polarity). -/
def negative_bitand (w : Nat) (a b : Int) : Int := i_and w a b

/-- `BitOr<PositiveI{w}> for NegativeI{w}` (negative result). -/
def negative_bitor_positive (w : Nat) (a b : Int) : Int := i_or w a b

/-- `BitOr<NegativeI{w}> for PositiveI{w}` (negative result). -/
def positive_bitor_negative (w : Nat) (b a : Int) : Int := i_or w b a

/-- `BitAnd<PositiveI{w}> for NegativeI{w}` (positive result). -/
def negative_bitand_positive (w : Nat) (a b : Int) : Int := i_and w a b

/-- `BitAnd<NegativeI{w}> for PositiveI{w}` (positive result). -/
def positive_bitand_negative (w : Nat) (b a : Int) : Int := i_and w b a

/-- `BitXor<PositiveI{w}> for NegativeI{w}` (negative result). -/
def negative_bitxor_positive (w : Nat) (a b : Int) : Int := i_xor w a b

/-- `BitXor<NegativeI{w}> for PositiveI{w}` (negative result). -/
def positive_bitxor_negative (w : Nat) (b a : Int) : Int := i_xor w b a

/-- `BitXor for NegativeI{w}` (both operands negative; positive result). -/
def negative_bitxor (w : Nat) (a b : Int) : Int := i_xor w a b

/-- `Not for NegativeI{w}` (result is the positive sibling). -/
def negative_not (w : Nat) (a : Int) : Int := i_not w a

/-! ### Conversions (`impl_from` / `impl_from_get` / `impl_*_try_from`) -/

/-- Same-polarity widening (`From<PositiveI{w}> for PositiveI{w2}` with
`w ≤ w2`): `new_unchecked(value.get() as $base2)`, value preserved. -/
def positive_widen (a : Int) : Int := a

/-- Same-polarity widening for the negative types. -/
def negative_widen (a : Int) : Int := a

/-- `From<u{k}> for PositiveI{w}` with `k < w` (`impl_from`):
`new_unchecked(value as $base)`. -/
def positive_from_unsigned (n : Nat) : Int := (n : Int)

/-- `impl_positive_try_from`: route the source through `u_base` and `i_base`
range checks (net effect `0 ≤ x ≤ intMax w`), then `new_unchecked`. -/
def positive_try_from_int (w : Nat) (x : Int) : Option Int :=
  if x < 0 then none
  else if intMax w < x then none
  else some x

/-- `impl_negative_try_from`: `$base::try_from` (a primitive range check),
then `Self::new`. -/
def negative_try_from_int (w : Nat) (x : Int) : Option Int :=
  if x < intMin w then none
  else if intMax w < x then none
  else negative_new w x

/-! ### String parsing (`FromStr`)

`from_str` delegates to `str::parse` on the unsigned primitive (positive
types) or the signed primitive (negative types) and then applies the polarity
constructor, turning a constructor failure into `IntErrorKind::PosOverflow`.
The primitive decimal parser (Rust `core::num::from_str_radix` at radix 10)
is modelled on `List Char`. -/

/-- The relevant constructors of `core::num::IntErrorKind`. -/
inductive IntErrorKind : Type
  | empty
  | invalidDigit
  | posOverflow
  | negOverflow
deriving DecidableEq, Repr

/-- Decimal digit value of a character, if any. -/
def digitVal (c : Char) : Option Nat :=
  if '0' ≤ c ∧ c ≤ '9' then some (c.toNat - '0'.toNat) else none

/-- Digit-accumulation loop of the unsigned primitive parser:
`checked_mul` by 10 then `checked_add` the digit, against `u{w}::MAX`. -/
def parse_u_digits (w : Nat) : List Char → Nat → Except IntErrorKind Nat
  | [], acc => Except.ok acc
  | c :: rest, acc =>
    match digitVal c with
    | none => Except.error IntErrorKind.invalidDigit
    | some d =>
      if 2 ^ w - 1 < acc * 10 then Except.error IntErrorKind.posOverflow
      else if 2 ^ w - 1 < acc * 10 + d then Except.error IntErrorKind.posOverflow
      else parse_u_digits w rest (acc * 10 + d)

/-- `str::parse::<u{w}>` (decimal): empty input, optional leading `+`
(a sign with no digits is an invalid-digit error; `-` is not a sign for an
unsigned type and fails as an invalid digit inside the loop). -/
def parse_unsigned (w : Nat) (s : List Char) : Except IntErrorKind Nat :=
  match s with
  | [] => Except.error IntErrorKind.empty
  | ['+'] => Except.error IntErrorKind.invalidDigit
  | ['-'] => Except.error IntErrorKind.invalidDigit
  | '+' :: rest => parse_u_digits w rest 0
  | digits => parse_u_digits w digits 0

/-- Digit-accumulation loop of the signed primitive parser (accumulating
negatively after a `-` sign, against `i{w}::MIN`/`i{w}::MAX`). -/
def parse_s_digits (w : Nat) (isPos : Bool) : List Char → Int → Except IntErrorKind Int
  | [], acc => Except.ok acc
  | c :: rest, acc =>
    match digitVal c with
    | none => Except.error IntErrorKind.invalidDigit
    | some d =>
      if isPos then
        if intMax w < acc * 10 then Except.error IntErrorKind.posOverflow
        else if intMax w < acc * 10 + d then Except.error IntErrorKind.posOverflow
        else parse_s_digits w isPos rest (acc * 10 + d)
      else
        if acc * 10 < intMin w then Except.error IntErrorKind.negOverflow
        else if acc * 10 - d < intMin w then Except.error IntErrorKind.negOverflow
        else parse_s_digits w isPos rest (acc * 10 - d)

/-- `str::parse::<i{w}>` (decimal). -/
def parse_signed (w : Nat) (s : List Char) : Except IntErrorKind Int :=
  match s with
  | [] => Except.error IntErrorKind.empty
  | ['+'] => Except.error IntErrorKind.invalidDigit
  | ['-'] => Except.error IntErrorKind.invalidDigit
  | '+' :: rest => parse_s_digits w true rest 0
  | '-' :: rest => parse_s_digits w false rest 0
  | digits => parse_s_digits w true digits 0

/-- `FromStr for PositiveI{w}`: parse as `u{w}`, cast with `as $base`, then
`Self::new(..).ok_or(IntErrorKind::PosOverflow)`. -/
def positive_from_str (w : Nat) (s : List Char) : Except IntErrorKind Int :=
  match parse_unsigned w s with
  | Except.error e => Except.error e
  | Except.ok n =>
    match positive_new w (ofUns w n) with
    | some p => Except.ok p
    | none => Except.error IntErrorKind.posOverflow

/-- `FromStr for NegativeI{w}`: parse as `i{w}`, then
`Self::new(..).ok_or(IntErrorKind::PosOverflow)`. -/
def negative_from_str (w : Nat) (s : List Char) : Except IntErrorKind Int :=
  match parse_signed w s with
  | Except.error e => Except.error e
  | Except.ok n =>
    match negative_new w n with
    | some p => Except.ok p
    | none => Except.error IntErrorKind.posOverflow

/-! ### Range and representation lemmas -/

lemma natCast_two_pow (k : Nat) : (((2 : Nat) ^ k : Nat) : Int) = 2 ^ k := by
  push_cast
  ring

lemma two_pow_pos_int (k : Nat) : (0 : Int) < 2 ^ k := pow_pos (by norm_num) k

lemma intMax_nonneg (w : Nat) : 0 ≤ intMax w := by
  unfold intMax
  have := two_pow_pos_int (w - 1)
  omega

lemma intMin_le_intMax (w : Nat) : intMin w ≤ intMax w := by
  unfold intMin intMax
  have := two_pow_pos_int (w - 1)
  omega

lemma two_pow_split (w : Nat) (hw : 0 < w) : (2 : Int) ^ w = 2 ^ (w - 1) * 2 := by
  conv_lhs => rw [show w = (w - 1) + 1 by omega]
  rw [pow_succ]

lemma two_pow_split_nat (w : Nat) (hw : 0 < w) : 2 ^ w = 2 ^ (w - 1) * 2 := by
  conv_lhs => rw [show w = (w - 1) + 1 by omega]
  rw [pow_succ]

lemma toUns_lt (w : Nat) (x : Int) : toUns w x < 2 ^ w := by
  unfold toUns
  have h2 := two_pow_pos_int w
  have h1 := Int.emod_nonneg x (by omega : ((2 : Int) ^ w) ≠ 0)
  have h3 := Int.emod_lt_of_pos x h2
  have hc := natCast_two_pow w
  omega

lemma toUns_of_nonneg (w : Nat) (a : Int) (h0 : 0 ≤ a) (h1 : a ≤ intMax w) :
    (toUns w a : Int) = a ∧ toUns w a < 2 ^ (w - 1) := by
  have hp : (2 : Int) ^ (w - 1) ≤ 2 ^ w := pow_le_pow_right₀ (by norm_num) (Nat.sub_le w 1)
  have hc1 := natCast_two_pow (w - 1)
  unfold intMax at h1
  unfold toUns
  rw [Int.emod_eq_of_lt h0 (by omega)]
  omega

lemma toUns_of_neg (w : Nat) (hw : 0 < w) (a : Int) (h0 : intMin w ≤ a) (h1 : a < 0) :
    (toUns w a : Int) = a + 2 ^ w ∧ 2 ^ (w - 1) ≤ toUns w a ∧ toUns w a < 2 ^ w := by
  have hs := two_pow_split w hw
  have hc1 := natCast_two_pow (w - 1)
  have hc2 := natCast_two_pow w
  have hp := two_pow_pos_int (w - 1)
  unfold intMin at h0
  unfold toUns
  have he : a % ((2 : Int) ^ w) = a + 2 ^ w := by
    have hself := Int.add_mul_emod_self_left a ((2 : Int) ^ w) 1
    rw [mul_one] at hself
    rw [← hself]
    exact Int.emod_eq_of_lt (by omega) (by omega)
  rw [he]
  omega

lemma ofUns_posValid (w : Nat) (n : Nat) (h : n < 2 ^ (w - 1)) :
    ofUns w n = (n : Int) ∧ posValid w (ofUns w n) := by
  have hc1 := natCast_two_pow (w - 1)
  unfold ofUns posValid intMax
  rw [if_pos (by omega)]
  exact ⟨rfl, by omega, by omega⟩

lemma ofUns_negValid (w : Nat) (hw : 0 < w) (n : Nat) (hlo : 2 ^ (w - 1) ≤ n)
    (hhi : n < 2 ^ w) :
    ofUns w n = (n : Int) - 2 ^ w ∧ negValid w (ofUns w n) := by
  have hc1 := natCast_two_pow (w - 1)
  have hc2 := natCast_two_pow w
  have hs := two_pow_split w hw
  unfold ofUns negValid intMax intMin
  rw [if_neg (by omega)]
  exact ⟨rfl, by omega, by omega⟩

lemma ofUns_range (w : Nat) (hw : 0 < w) (n : Nat) (hhi : n < 2 ^ w) :
    intMin w ≤ ofUns w n ∧ ofUns w n ≤ intMax w := by
  have hc1 := natCast_two_pow (w - 1)
  have hc2 := natCast_two_pow w
  have hs := two_pow_split w hw
  have hp := two_pow_pos_int (w - 1)
  unfold ofUns intMax intMin
  split
  · constructor <;> omega
  · constructor <;> omega

lemma iWrap_id (w : Nat) (hw : 0 < w) (x : Int) (hlo : intMin w ≤ x) (hhi : x ≤ intMax w) :
    iWrap w x = x := by
  unfold iWrap
  rcases le_or_lt 0 x with h0 | h0
  · obtain ⟨he, hlt⟩ := toUns_of_nonneg w x h0 hhi
    obtain ⟨he2, _⟩ := ofUns_posValid w (toUns w x) hlt
    omega
  · obtain ⟨he, hlt, hlt2⟩ := toUns_of_neg w hw x hlo h0
    obtain ⟨he2, _⟩ := ofUns_negValid w hw (toUns w x) hlt hlt2
    omega

lemma i_clamp_range (w : Nat) (x : Int) : intMin w ≤ i_clamp w x ∧ i_clamp w x ≤ intMax w := by
  have h := intMin_le_intMax w
  unfold i_clamp
  split
  · omega
  · split <;> omega

/-! ### Sign-bit (most significant bit) lemmas -/

lemma testBit_msb (w : Nat) (hw : 0 < w) (n : Nat) (hn : n < 2 ^ w) :
    (n.testBit (w - 1) = true) ↔ 2 ^ (w - 1) ≤ n := by
  have hpow : 0 < 2 ^ (w - 1) := Nat.two_pow_pos (w - 1)
  have hsn := two_pow_split_nat w hw
  have hq : n / 2 ^ (w - 1) < 2 := (Nat.div_lt_iff_lt_mul hpow).2 (by omega)
  rw [Nat.testBit_to_div_mod, decide_eq_true_eq, Nat.mod_eq_of_lt hq]
  constructor
  · intro h
    have h1 : 1 * 2 ^ (w - 1) ≤ n := (Nat.le_div_iff_mul_le hpow).1 (by omega)
    omega
  · intro h
    have h1 : 1 ≤ n / 2 ^ (w - 1) := (Nat.le_div_iff_mul_le hpow).2 (by omega)
    omega

lemma msb_toUns_neg (w : Nat) (hw : 0 < w) (a : Int) (h : negValid w a) :
    (toUns w a).testBit (w - 1) = true := by
  obtain ⟨h1, h2⟩ := h
  obtain ⟨_, hlo, hhi⟩ := toUns_of_neg w hw a h1 h2
  exact (testBit_msb w hw _ hhi).2 hlo

lemma msb_toUns_pos (w : Nat) (a : Int) (h : posValid w a) :
    (toUns w a).testBit (w - 1) = false := by
  obtain ⟨h1, h2⟩ := h
  obtain ⟨_, hlt⟩ := toUns_of_nonneg w a h1 h2
  exact Nat.testBit_lt_two_pow hlt

lemma ofUns_valid_of_msb_true (w : Nat) (hw : 0 < w) (m : Nat) (hm : m < 2 ^ w)
    (h : m.testBit (w - 1) = true) : negValid w (ofUns w m) :=
  (ofUns_negValid w hw m ((testBit_msb w hw m hm).1 h) hm).2

lemma ofUns_valid_of_msb_false (w : Nat) (hw : 0 < w) (m : Nat) (hm : m < 2 ^ w)
    (h : m.testBit (w - 1) = false) : posValid w (ofUns w m) := by
  have hn : ¬2 ^ (w - 1) ≤ m := fun hc => by
    rw [(testBit_msb w hw m hm).2 hc] at h
    cases h
  exact (ofUns_posValid w m (by omega)).2

/-! ### Validity of the bitwise operations -/

lemma i_or_negValid_left (w : Nat) (hw : 0 < w) (a b : Int) (ha : negValid w a) :
    negValid w (i_or w a b) := by
  unfold i_or
  have hm : toUns w a ||| toUns w b < 2 ^ w :=
    Nat.or_lt_two_pow (toUns_lt w a) (toUns_lt w b)
  apply ofUns_valid_of_msb_true w hw _ hm
  rw [Nat.testBit_or, msb_toUns_neg w hw a ha]
  rfl

lemma i_and_posValid_left (w : Nat) (hw : 0 < w) (a b : Int) (ha : posValid w a) :
    posValid w (i_and w a b) := by
  unfold i_and
  have hm : toUns w a &&& toUns w b < 2 ^ w :=
    Nat.and_lt_two_pow (toUns w a) (toUns_lt w b)
  apply ofUns_valid_of_msb_false w hw _ hm
  rw [Nat.testBit_and, msb_toUns_pos w a ha]
  rfl

lemma i_and_posValid_right (w : Nat) (hw : 0 < w) (a b : Int) (hb : posValid w b) :
    posValid w (i_and w a b) := by
  unfold i_and
  have hm : toUns w a &&& toUns w b < 2 ^ w :=
    Nat.and_lt_two_pow (toUns w a) (toUns_lt w b)
  apply ofUns_valid_of_msb_false w hw _ hm
  rw [Nat.testBit_and, msb_toUns_pos w b hb, Bool.and_false]

lemma i_and_negValid (w : Nat) (hw : 0 < w) (a b : Int) (ha : negValid w a)
    (hb : negValid w b) : negValid w (i_and w a b) := by
  unfold i_and
  have hm : toUns w a &&& toUns w b < 2 ^ w :=
    Nat.and_lt_two_pow (toUns w a) (toUns_lt w b)
  apply ofUns_valid_of_msb_true w hw _ hm
  rw [Nat.testBit_and, msb_toUns_neg w hw a ha, msb_toUns_neg w hw b hb]
  rfl

lemma i_xor_negValid_of_neg_pos (w : Nat) (hw : 0 < w) (a b : Int) (ha : negValid w a)
    (hb : posValid w b) : negValid w (i_xor w a b) := by
  unfold i_xor
  have hm : toUns w a ^^^ toUns w b < 2 ^ w :=
    Nat.xor_lt_two_pow (toUns_lt w a) (toUns_lt w b)
  apply ofUns_valid_of_msb_true w hw _ hm
  rw [Nat.testBit_xor, msb_toUns_neg w hw a ha, msb_toUns_pos w b hb]
  rfl

lemma i_xor_negValid_of_pos_neg (w : Nat) (hw : 0 < w) (a b : Int) (ha : posValid w a)
    (hb : negValid w b) : negValid w (i_xor w a b) := by
  unfold i_xor
  have hm : toUns w a ^^^ toUns w b < 2 ^ w :=
    Nat.xor_lt_two_pow (toUns_lt w a) (toUns_lt w b)
  apply ofUns_valid_of_msb_true w hw _ hm
  rw [Nat.testBit_xor, msb_toUns_pos w a ha, msb_toUns_neg w hw b hb]
  rfl

lemma i_xor_posValid_of_neg_neg (w : Nat) (hw : 0 < w) (a b : Int) (ha : negValid w a)
    (hb : negValid w b) : posValid w (i_xor w a b) := by
  unfold i_xor
  have hm : toUns w a ^^^ toUns w b < 2 ^ w :=
    Nat.xor_lt_two_pow (toUns_lt w a) (toUns_lt w b)
  apply ofUns_valid_of_msb_false w hw _ hm
  rw [Nat.testBit_xor, msb_toUns_neg w hw a ha, msb_toUns_neg w hw b hb]
  rfl

lemma i_xor_posValid_of_pos_pos (w : Nat) (hw : 0 < w) (a b : Int) (ha : posValid w a)
    (hb : posValid w b) : posValid w (i_xor w a b) := by
  unfold i_xor
  have hm : toUns w a ^^^ toUns w b < 2 ^ w :=
    Nat.xor_lt_two_pow (toUns_lt w a) (toUns_lt w b)
  apply ofUns_valid_of_msb_false w hw _ hm
  rw [Nat.testBit_xor, msb_toUns_pos w a ha, msb_toUns_pos w b hb]
  rfl

lemma i_not_negValid (w : Nat) (hw : 0 < w) (a : Int) (ha : posValid w a) :
    negValid w (i_not w a) := by
  unfold i_not
  obtain ⟨h1, h2⟩ := ha
  obtain ⟨he, hlt⟩ := toUns_of_nonneg w a h1 h2
  have hsn := two_pow_split_nat w hw
  have hp : 0 < 2 ^ (w - 1) := Nat.two_pow_pos (w - 1)
  exact (ofUns_negValid w hw _ (by omega) (by omega)).2

lemma i_not_posValid (w : Nat) (hw : 0 < w) (a : Int) (ha : negValid w a) :
    posValid w (i_not w a) := by
  unfold i_not
  obtain ⟨h1, h2⟩ := ha
  obtain ⟨he, hlo, hhi⟩ := toUns_of_neg w hw a h1 h2
  have hsn := two_pow_split_nat w hw
  exact (ofUns_posValid w _ (by omega)).2

/-! ### Validity of the division operations -/

lemma tdiv_posValid_of_pos (w : Nat) (a b : Int) (ha : posValid w a) (hb0 : 0 < b) :
    posValid w (a.tdiv b) := by
  obtain ⟨h1, h2⟩ := ha
  rw [Int.tdiv_eq_ediv h1 (le_of_lt hb0)]
  exact ⟨Int.ediv_nonneg h1 (le_of_lt hb0), le_trans (Int.ediv_le_self b h1) h2⟩

lemma tmod_posValid_of_pos (w : Nat) (a b : Int) (ha : posValid w a) (hb : posValid w b)
    (hb0 : 0 < b) : posValid w (Int.tmod a b) := by
  obtain ⟨h1, _⟩ := ha
  obtain ⟨_, h2⟩ := hb
  have hn := Int.tmod_nonneg b h1
  have hl := Int.tmod_lt_of_pos a hb0
  exact ⟨hn, by omega⟩

lemma tdiv_posValid_of_neg_neg (w : Nat) (a b : Int) (ha : negValid w a) (hb : negValid w b)
    (hx : ¬(a = intMin w ∧ b = -1)) : posValid w (a.tdiv b) := by
  obtain ⟨ha1, ha2⟩ := ha
  obtain ⟨hb1, hb2⟩ := hb
  have hq : a.tdiv b = (-a).tdiv (-b) := (Int.neg_tdiv_neg a b).symm
  have hA0 : (0 : Int) < -a := by omega
  have hB0 : (0 : Int) < -b := by omega
  have hAt : ((-a).toNat : Int) = -a := Int.toNat_of_nonneg (le_of_lt hA0)
  have hBt : ((-b).toNat : Int) = -b := Int.toNat_of_nonneg (le_of_lt hB0)
  have hdiv : (-a).tdiv (-b) = (((-a).toNat / (-b).toNat : Nat) : Int) := by
    rw [Int.ofNat_ediv, hAt, hBt, Int.tdiv_eq_ediv (le_of_lt hA0) (le_of_lt hB0)]
  have hc1 := natCast_two_pow (w - 1)
  have hAle : (-a).toNat ≤ 2 ^ (w - 1) := by
    unfold intMin at ha1
    omega
  have hval : (-a).toNat / (-b).toNat ≤ 2 ^ (w - 1) - 1 := by
    rcases Nat.lt_or_ge (-b).toNat 2 with hB1 | hB2
    · -- (-b).toNat = 1, i.e. b = -1; then a ≠ intMin
      have hBone : (-b).toNat = 1 := by omega
      have hbneg1 : b = -1 := by omega
      have hane : a ≠ intMin w := fun hc => hx ⟨hc, hbneg1⟩
      rw [hBone, Nat.div_one]
      unfold intMin at ha1 hane
      omega
    · have hApos : 0 < (-a).toNat := by omega
      have := Nat.div_lt_self hApos hB2
      omega
  constructor
  · rw [hq, hdiv]
    exact Int.ofNat_nonneg _
  · rw [hq, hdiv]
    unfold intMax
    omega

lemma ediv_posValid_of_neg_neg (w : Nat) (a b : Int) (ha : negValid w a) (hb : negValid w b)
    (hx : ¬(a = intMin w ∧ b = -1)) : posValid w (a / b) := by
  obtain ⟨ha1, ha2⟩ := ha
  obtain ⟨hb1, hb2⟩ := hb
  have hM : (0 : Int) < 2 ^ (w - 1) := two_pow_pos_int (w - 1)
  have hr0 : 0 ≤ a % b := Int.emod_nonneg a (by omega)
  have hrlt : a % b < -b := by
    have h := Int.emod_lt_of_pos a (show (0 : Int) < -b by omega)
    rwa [Int.emod_neg] at h
  have hq0 : 0 ≤ a / b := Int.ediv_nonneg_of_nonpos_of_nonpos (le_of_lt ha2) (le_of_lt hb2)
  have hid : b * (a / b) + a % b = a := Int.ediv_add_emod a b
  have hBq : (-b) * (a / b) = (-a) + a % b := by linarith
  refine ⟨hq0, ?_⟩
  unfold intMax
  unfold intMin at ha1 hb1
  by_contra hgt
  push_neg at hgt
  have hqM : 2 ^ (w - 1) ≤ a / b := by omega
  rcases lt_or_le b (-1) with hB2 | hB1
  · -- -b ≥ 2: (-b) * q ≥ 2 * q, but (-b) * q = (-a) + r < (-a) + (-b)
    have h2q : 2 * (a / b) ≤ (-b) * (a / b) :=
      mul_le_mul_of_nonneg_right (by omega) hq0
    omega
  · -- b = -1: q = -a, so the bound forces a = intMin, which is excluded
    have hbneg1 : b = -1 := by omega
    have hq : a / b = -a := by rw [hbneg1, show (-1 : Int) = -(1 : Int) from rfl,
      Int.ediv_neg, Int.ediv_one]
    refine hx ⟨?_, hbneg1⟩
    unfold intMin
    omega

/-! ### Constructor and wrap helper lemmas -/

lemma positive_new_optValid (w : Nat) (x : Int) (hx : x ≤ intMax w) :
    optPosValid w (positive_new w x) := by
  unfold positive_new
  split
  · trivial
  · exact ⟨by omega, hx⟩

lemma negative_new_optValid (w : Nat) (x : Int) (hx : intMin w ≤ x) :
    optNegValid w (negative_new w x) := by
  unfold negative_new
  split
  · trivial
  · exact ⟨hx, by omega⟩

lemma positive_new_eq_some (w : Nat) (x p : Int) (h : positive_new w x = some p) :
    p = x ∧ 0 ≤ x := by
  unfold positive_new at h
  split at h
  · cases h
  · cases h
    exact ⟨rfl, by omega⟩

lemma negative_new_eq_some (w : Nat) (x p : Int) (h : negative_new w x = some p) :
    p = x ∧ x < 0 := by
  unfold negative_new at h
  split at h
  · cases h
  · cases h
    exact ⟨rfl, by omega⟩

lemma iWrap_range (w : Nat) (hw : 0 < w) (x : Int) :
    intMin w ≤ iWrap w x ∧ iWrap w x ≤ intMax w :=
  ofUns_range w hw _ (toUns_lt w x)

lemma i_or_negValid_right (w : Nat) (hw : 0 < w) (a b : Int) (hb : negValid w b) :
    negValid w (i_or w a b) := by
  unfold i_or
  have hm : toUns w a ||| toUns w b < 2 ^ w :=
    Nat.or_lt_two_pow (toUns_lt w a) (toUns_lt w b)
  apply ofUns_valid_of_msb_true w hw _ hm
  rw [Nat.testBit_or, msb_toUns_neg w hw b hb, Bool.or_true]

lemma i_or_posValid_of_pos_pos (w : Nat) (a b : Int) (ha : posValid w a)
    (hb : posValid w b) : posValid w (i_or w a b) := by
  unfold i_or
  obtain ⟨_, hlt⟩ := toUns_of_nonneg w a ha.1 ha.2
  obtain ⟨_, hlt2⟩ := toUns_of_nonneg w b hb.1 hb.2
  exact (ofUns_posValid w _ (Nat.or_lt_two_pow hlt hlt2)).2

lemma i_and_posValid_of_pos_pos (w : Nat) (a b : Int) (hb : posValid w b) :
    posValid w (i_and w a b) := by
  unfold i_and
  obtain ⟨_, hlt2⟩ := toUns_of_nonneg w b hb.1 hb.2
  exact (ofUns_posValid w _ (Nat.and_lt_two_pow _ hlt2)).2

lemma i_xor_posValid_of_pos_pos_direct (w : Nat) (a b : Int) (ha : posValid w a)
    (hb : posValid w b) : posValid w (i_xor w a b) := by
  unfold i_xor
  obtain ⟨_, hlt⟩ := toUns_of_nonneg w a ha.1 ha.2
  obtain ⟨_, hlt2⟩ := toUns_of_nonneg w b hb.1 hb.2
  exact (ofUns_posValid w _ (Nat.xor_lt_two_pow hlt hlt2)).2

/-! ### The claims -/

/-- Claim C2: for every width and polarity and every primitive value `v`
satisfying the polarity constraint, `new v` returns a wrapped value whose
`get` is exactly `v`; for every primitive value violating the constraint,
`new v` returns `none`. -/
theorem new_roundtrip_rejection (w : Nat) (v : Int)
    (hlo : intMin w ≤ v) (hhi : v ≤ intMax w) :
    (0 ≤ v → ∃ p, positive_new w v = some p ∧ positive_get p = v) ∧
    (v < 0 → positive_new w v = none) ∧
    (v < 0 → ∃ q, negative_new w v = some q ∧ negative_get q = v) ∧
    (0 ≤ v → negative_new w v = none) := by
  unfold positive_new negative_new positive_get negative_get
  refine ⟨fun h => ⟨v, ?_, rfl⟩, fun h => ?_, fun h => ⟨v, ?_, rfl⟩, fun h => ?_⟩
  · rw [if_neg (by omega)]
  · rw [if_pos h]
  · rw [if_neg (by omega)]
  · rw [if_pos h]

/-- Witness for C2 at width 8 with the primitive values 5 and -5. -/
theorem new_roundtrip_rejection_witness :
    (∃ p, positive_new 8 5 = some p ∧ positive_get p = 5) ∧
    negative_new 8 5 = none ∧
    (∃ q, negative_new 8 (-5) = some q ∧ negative_get q = -5) ∧
    positive_new 8 (-5) = none :=
  ⟨(new_roundtrip_rejection 8 5 (by decide) (by decide)).1 (by decide),
   (new_roundtrip_rejection 8 5 (by decide) (by decide)).2.2.2 (by decide),
   (new_roundtrip_rejection 8 (-5) (by decide) (by decide)).2.2.1 (by decide),
   (new_roundtrip_rejection 8 (-5) (by decide) (by decide)).2.1 (by decide)⟩

/-- Claim C4 (counterexample): the claim states `checked_neg` on a positive
value "returns None unless p == 0" and "when p == 0 it succeeds"; the code
does the opposite — at `p = 0` it returns `none` (because
`NegativeI8::new(0)` rejects 0) and at `p = 1` it succeeds with `-1`. -/
theorem checked_neg_claim_cex :
    positive_checked_neg 8 0 = none ∧ positive_checked_neg 8 1 = some (-1) := by
  constructor <;> rfl

/-- Claim C4 (amended): `checked_neg` on a positive value returns `none`
exactly when the value is 0; for `p > 0` it succeeds, producing the negative
sibling value `-p` (which satisfies the negative polarity constraint). -/
theorem checked_neg_amended (w : Nat) (p : Int) (hp : posValid w p) :
    (p = 0 → positive_checked_neg w p = none) ∧
    (0 < p → positive_checked_neg w p = some (-p) ∧ negValid w (-p)) := by
  obtain ⟨h1, h2⟩ := hp
  have hM := two_pow_pos_int (w - 1)
  constructor
  · intro h
    subst h
    unfold positive_checked_neg negative_new
    rw [if_pos (by omega)]
  · intro h
    unfold positive_checked_neg negative_new
    rw [if_neg (by omega)]
    refine ⟨rfl, ?_, by omega⟩
    unfold intMin
    unfold intMax at h2
    omega

/-- Witness for the amended C4 at width 8 with the values 1 and 0. -/
theorem checked_neg_amended_witness :
    (positive_checked_neg 8 1 = some (-1) ∧ negValid 8 (-1)) ∧
    positive_checked_neg 8 0 = none :=
  ⟨(checked_neg_amended 8 1 (by decide)).2 (by decide),
   (checked_neg_amended 8 0 (by decide)).1 (by decide)⟩

/-- Claim C5 (code bug): `NegativeI{w}::checked_rem_euclid` never returns
`None` — its body calls the panicking primitive `rem_euclid` directly, so a
zero divisor traps instead of yielding an absent result (and `(MIN, -1)`
also traps). This contradicts the function's own doc comment ("Returns
`None` if `rhs == 0` or the result would overflow") and the crate's
`checked_rem_euclid` proptest, which draws `rhs` from the full range. -/
theorem checked_rem_euclid_panics :
    negative_checked_rem_euclid 8 (-1) 0 = Except.error () ∧
    negative_checked_rem_euclid 8 (-128) (-1) = Except.error () := by
  constructor <;> rfl

/-- Claim C10: `NegativeI{w}::leading_zeros` returns the constant 0 without
inspecting the stored value, and 0 is exactly the primitive `leading_zeros`
of `get` of any valid negative value (its sign bit is set). -/
theorem negative_leading_zeros_spec (w : Nat) (hw : 0 < w) (a : Int)
    (ha : negValid w a) :
    negative_leading_zeros a = 0 ∧ i_leading_zeros w (negative_get a) = 0 := by
  obtain ⟨h1, h2⟩ := ha
  obtain ⟨_, hlo, hhi⟩ := toUns_of_neg w hw a h1 h2
  refine ⟨rfl, ?_⟩
  unfold i_leading_zeros negative_get
  have hle : (toUns w a).size ≤ w := Nat.size_le.2 hhi
  have hlt : w - 1 < (toUns w a).size := Nat.lt_size.2 hlo
  omega

/-- Witness for C10 at width 8 with the value -1. -/
theorem negative_leading_zeros_witness :
    negative_leading_zeros (-1) = 0 ∧ i_leading_zeros 8 (negative_get (-1)) = 0 :=
  negative_leading_zeros_spec 8 (by decide) (-1) (by decide)

/-- Claim C3: for every valid same-type operand pair, the wrapped checked
arithmetic equals the primitive checked operation applied to the operands'
values and re-wrapped through the result type's checked constructor — both
sides are `none` in exactly the same cases and otherwise hold the same
primitive value. This includes `checked_sub`, which the implementation
computes with an unchecked primitive subtraction followed by validation. -/
theorem checked_arith_equiv (w : Nat) (hw : 0 < w) (a b : Int) :
    (posValid w a → posValid w b →
      positive_checked_add w a b = (i_checked_add w a b).bind (positive_new w) ∧
      positive_checked_sub w a b = (i_checked_sub w a b).bind (positive_new w) ∧
      positive_checked_mul w a b = (i_checked_mul w a b).bind (positive_new w) ∧
      positive_checked_div w a b = (i_checked_div w a b).bind (positive_new w) ∧
      positive_checked_rem w a b = (i_checked_rem w a b).bind (positive_new w)) ∧
    (negValid w a → negValid w b →
      negative_checked_add w a b = (i_checked_add w a b).bind (negative_new w) ∧
      negative_checked_sub w a b = (i_checked_sub w a b).bind (negative_new w) ∧
      negative_checked_mul w a b = (i_checked_mul w a b).bind (positive_new w) ∧
      negative_checked_div w a b = (i_checked_div w a b).bind (positive_new w)) := by
  have hM := two_pow_pos_int (w - 1)
  constructor
  · intro ha hb
    obtain ⟨ha1, ha2⟩ := ha
    obtain ⟨hb1, hb2⟩ := hb
    refine ⟨?_, ?_, ?_, ?_, ?_⟩
    · unfold positive_checked_add i_checked_add
      by_cases hc : intMin w ≤ a + b ∧ a + b ≤ intMax w
      · rw [if_pos hc]
        show some (a + b) = positive_new w (a + b)
        unfold positive_new
        rw [if_neg (by omega)]
      · rw [if_neg hc]
        rfl
    · have hsub : i_wrapping_sub w a b = a - b := by
        unfold i_wrapping_sub
        apply iWrap_id w hw
        · unfold intMin
          unfold intMax at ha2 hb2
          omega
        · unfold intMax at ha2 hb2 ⊢
          omega
      unfold positive_checked_sub i_checked_sub
      rw [hsub, if_pos ?side]
      case side =>
        unfold intMin
        unfold intMax at ha2 hb2 ⊢
        omega
      rfl
    · unfold positive_checked_mul i_checked_mul
      by_cases hc : intMin w ≤ a * b ∧ a * b ≤ intMax w
      · rw [if_pos hc]
        show some (a * b) = positive_new w (a * b)
        unfold positive_new
        rw [if_neg (not_lt.2 (mul_nonneg ha1 hb1))]
      · rw [if_neg hc]
        rfl
    · unfold positive_checked_div i_checked_div
      by_cases hb0 : b = 0
      · rw [if_pos hb0]
        rfl
      · rw [if_neg hb0]
        by_cases hmin : a = intMin w ∧ b = -1
        · rw [if_pos hmin]
          rfl
        · rw [if_neg hmin]
          show some (a.tdiv b) = positive_new w (a.tdiv b)
          obtain ⟨hd1, _⟩ := tdiv_posValid_of_pos w a b ⟨ha1, ha2⟩ (by omega)
          unfold positive_new
          rw [if_neg (not_lt.2 hd1)]
    · unfold positive_checked_rem i_checked_rem
      by_cases hb0 : b = 0
      · rw [if_pos hb0]
        rfl
      · rw [if_neg hb0]
        by_cases hmin : a = intMin w ∧ b = -1
        · rw [if_pos hmin]
          rfl
        · rw [if_neg hmin]
          show some (Int.tmod a b) = positive_new w (Int.tmod a b)
          obtain ⟨hd1, _⟩ := tmod_posValid_of_pos w a b ⟨ha1, ha2⟩ ⟨hb1, hb2⟩ (by omega)
          unfold positive_new
          rw [if_neg (not_lt.2 hd1)]
  · intro ha hb
    obtain ⟨ha1, ha2⟩ := ha
    obtain ⟨hb1, hb2⟩ := hb
    refine ⟨?_, ?_, ?_, ?_⟩
    · unfold negative_checked_add i_checked_add
      by_cases hc : intMin w ≤ a + b ∧ a + b ≤ intMax w
      · rw [if_pos hc]
        show some (a + b) = negative_new w (a + b)
        unfold negative_new
        rw [if_neg (by omega)]
      · rw [if_neg hc]
        rfl
    · have hsub : i_wrapping_sub w a b = a - b := by
        unfold i_wrapping_sub
        apply iWrap_id w hw
        · unfold intMin at ha1 hb1 ⊢
          omega
        · unfold intMax
          unfold intMin at ha1 hb1
          omega
      unfold negative_checked_sub i_checked_sub
      rw [hsub, if_pos ?nside]
      case nside =>
        unfold intMax
        unfold intMin at ha1 hb1 ⊢
        omega
      rfl
    · unfold negative_checked_mul i_checked_mul
      by_cases hc : intMin w ≤ a * b ∧ a * b ≤ intMax w
      · rw [if_pos hc]
        show some (a * b) = positive_new w (a * b)
        have hpos := mul_pos_of_neg_of_neg ha2 hb2
        unfold positive_new
        rw [if_neg (by omega)]
      · rw [if_neg hc]
        rfl
    · unfold negative_checked_div i_checked_div
      by_cases hb0 : b = 0
      · rw [if_pos hb0]
        rfl
      · rw [if_neg hb0]
        by_cases hmin : a = intMin w ∧ b = -1
        · rw [if_pos hmin]
          rfl
        · rw [if_neg hmin]
          show some (a.tdiv b) = positive_new w (a.tdiv b)
          obtain ⟨hd1, _⟩ :=
            tdiv_posValid_of_neg_neg w a b ⟨ha1, ha2⟩ ⟨hb1, hb2⟩ hmin
          unfold positive_new
          rw [if_neg (not_lt.2 hd1)]

/-- Witness for C3 at width 8 with the pairs (3, 5) and (-3, -5). -/
theorem checked_arith_equiv_witness :
    (positive_checked_add 8 3 5 = (i_checked_add 8 3 5).bind (positive_new 8) ∧
      positive_checked_sub 8 3 5 = (i_checked_sub 8 3 5).bind (positive_new 8) ∧
      positive_checked_mul 8 3 5 = (i_checked_mul 8 3 5).bind (positive_new 8) ∧
      positive_checked_div 8 3 5 = (i_checked_div 8 3 5).bind (positive_new 8) ∧
      positive_checked_rem 8 3 5 = (i_checked_rem 8 3 5).bind (positive_new 8)) ∧
    (negative_checked_add 8 (-3) (-5) = (i_checked_add 8 (-3) (-5)).bind (negative_new 8) ∧
      negative_checked_sub 8 (-3) (-5) = (i_checked_sub 8 (-3) (-5)).bind (negative_new 8) ∧
      negative_checked_mul 8 (-3) (-5) = (i_checked_mul 8 (-3) (-5)).bind (positive_new 8) ∧
      negative_checked_div 8 (-3) (-5) = (i_checked_div 8 (-3) (-5)).bind (positive_new 8)) :=
  ⟨(checked_arith_equiv 8 (by decide) 3 5).1 (by decide) (by decide),
   (checked_arith_equiv 8 (by decide) (-3) (-5)).2 (by decide) (by decide)⟩

/-- Claim C6: for a negative `a` and positive `b` of the same width, `a | b`
is negative and equals the primitive OR; `a & b` is positive and equals the
primitive AND; `a ^ b` (either operand order) is negative and equals the
primitive XOR; and for two negative values XOR is positive — so every
unchecked construction's sign precondition holds. -/
theorem bitwise_sign_rules (w : Nat) (hw : 0 < w) (a b a2 : Int)
    (ha : negValid w a) (hb : posValid w b) (ha2 : negValid w a2) :
    (negValid w (negative_bitor_positive w a b) ∧
      negative_bitor_positive w a b = i_or w a b) ∧
    (negValid w (positive_bitor_negative w b a) ∧
      positive_bitor_negative w b a = i_or w b a) ∧
    (posValid w (negative_bitand_positive w a b) ∧
      negative_bitand_positive w a b = i_and w a b) ∧
    (posValid w (positive_bitand_negative w b a) ∧
      positive_bitand_negative w b a = i_and w b a) ∧
    (negValid w (negative_bitxor_positive w a b) ∧
      negative_bitxor_positive w a b = i_xor w a b) ∧
    (negValid w (positive_bitxor_negative w b a) ∧
      positive_bitxor_negative w b a = i_xor w b a) ∧
    (posValid w (negative_bitxor w a a2) ∧
      negative_bitxor w a a2 = i_xor w a a2) :=
  ⟨⟨i_or_negValid_left w hw a b ha, rfl⟩,
   ⟨i_or_negValid_right w hw b a ha, rfl⟩,
   ⟨i_and_posValid_right w hw a b hb, rfl⟩,
   ⟨i_and_posValid_left w hw b a hb, rfl⟩,
   ⟨i_xor_negValid_of_neg_pos w hw a b ha hb, rfl⟩,
   ⟨i_xor_negValid_of_pos_neg w hw b a hb ha, rfl⟩,
   ⟨i_xor_posValid_of_neg_neg w hw a a2 ha ha2, rfl⟩⟩

/-- Witness for C6 at width 8 with `a = -1`, `b = 5`, `a2 = -1` (the spec's
own bitwise sign table row). -/
theorem bitwise_sign_rules_witness :
    (negValid 8 (negative_bitor_positive 8 (-1) 5) ∧
      negative_bitor_positive 8 (-1) 5 = i_or 8 (-1) 5) ∧
    (negValid 8 (positive_bitor_negative 8 5 (-1)) ∧
      positive_bitor_negative 8 5 (-1) = i_or 8 5 (-1)) ∧
    (posValid 8 (negative_bitand_positive 8 (-1) 5) ∧
      negative_bitand_positive 8 (-1) 5 = i_and 8 (-1) 5) ∧
    (posValid 8 (positive_bitand_negative 8 5 (-1)) ∧
      positive_bitand_negative 8 5 (-1) = i_and 8 5 (-1)) ∧
    (negValid 8 (negative_bitxor_positive 8 (-1) 5) ∧
      negative_bitxor_positive 8 (-1) 5 = i_xor 8 (-1) 5) ∧
    (negValid 8 (positive_bitxor_negative 8 5 (-1)) ∧
      positive_bitxor_negative 8 5 (-1) = i_xor 8 5 (-1)) ∧
    (posValid 8 (negative_bitxor 8 (-1) (-1)) ∧
      negative_bitxor 8 (-1) (-1) = i_xor 8 (-1) (-1)) :=
  bitwise_sign_rules 8 (by decide) (-1) 5 (-1) (by decide) (by decide) (by decide)

/-- Claim C8: for every input string that parses successfully on the
underlying unconstrained primitive (the unsigned primitive for positive
types, the signed primitive for negative types) but whose value violates the
polarity constraint, `from_str` returns the overflow-class error
`IntErrorKind.posOverflow`, not a distinct wrong-sign error. -/
theorem from_str_overflow_conflation (w : Nat) (s : List Char) (n : Nat) (m : Int) :
    (parse_unsigned w s = Except.ok n → ofUns w n < 0 →
      positive_from_str w s = Except.error IntErrorKind.posOverflow) ∧
    (parse_signed w s = Except.ok m → 0 ≤ m →
      negative_from_str w s = Except.error IntErrorKind.posOverflow) := by
  constructor
  · intro hp hv
    unfold positive_from_str
    rw [hp]
    show (match positive_new w (ofUns w n) with
      | some p => Except.ok p
      | none => Except.error IntErrorKind.posOverflow) = _
    unfold positive_new
    rw [if_pos hv]
  · intro hp hv
    unfold negative_from_str
    rw [hp]
    show (match negative_new w m with
      | some p => Except.ok p
      | none => Except.error IntErrorKind.posOverflow) = _
    unfold negative_new
    rw [if_pos hv]

/-- Witness for C8 at width 8: "200" parses as `u8` to 200, whose cast to
`i8` is -56 (negative), and "5" parses as `i8` to 5 (non-negative); both
report `posOverflow`. -/
theorem from_str_overflow_conflation_witness :
    positive_from_str 8 (['2', '0', '0']) = Except.error IntErrorKind.posOverflow ∧
    negative_from_str 8 (['5']) = Except.error IntErrorKind.posOverflow :=
  ⟨(from_str_overflow_conflation 8 (['2', '0', '0']) 200 0).1 (by rfl) (by decide),
   (from_str_overflow_conflation 8 (['5']) 0 5).2 (by rfl) (by decide)⟩

/-- Claim C1: every embedded operation of the positive/negative types —
checked and saturating arithmetic, bitwise operations (including the
operators taking an unconstrained primitive operand), negation/absolute
value, and conversions — only ever constructs and returns values satisfying
the result type's polarity constraint; any path that would violate it
returns `none` (checked) or clamps (saturating) before construction. -/
theorem polarity_invariant (w : Nat) (hw : 0 < w) :
    (∀ a b : Int, posValid w a → posValid w b →
      optPosValid w (positive_checked_add w a b) ∧
      optPosValid w (positive_checked_sub w a b) ∧
      optPosValid w (positive_checked_mul w a b) ∧
      optPosValid w (positive_checked_div w a b) ∧
      optPosValid w (positive_checked_rem w a b) ∧
      posValid w (positive_saturating_add w a b) ∧
      posValid w (positive_saturating_sub w a b) ∧
      posValid w (positive_saturating_mul w a b) ∧
      posValid w (positive_bitor w a b) ∧
      posValid w (positive_bitand w a b) ∧
      posValid w (positive_bitxor w a b)) ∧
    (∀ a : Int, posValid w a →
      optNegValid w (positive_checked_neg w a) ∧
      negValid w (positive_not w a) ∧
      optPosValid w (positive_checked_next_power_of_two w a) ∧
      (∀ e : Nat, optPosValid w (positive_checked_pow w a e) ∧
        posValid w (positive_saturating_pow w a e)) ∧
      (∀ r : Nat, optPosValid w (positive_checked_div_unsigned w a r) ∧
        optPosValid w (positive_checked_rem_unsigned w a r)) ∧
      (∀ r : Int, intMin w ≤ r → r ≤ intMax w →
        posValid w (positive_bitand_base w a r))) ∧
    (∀ a b : Int, negValid w a → negValid w b →
      optNegValid w (negative_checked_add w a b) ∧
      optNegValid w (negative_checked_sub w a b) ∧
      optPosValid w (negative_checked_mul w a b) ∧
      optPosValid w (negative_checked_div w a b) ∧
      optPosValid w (negative_checked_div_euclid w a b) ∧
      negValid w (negative_saturating_add w a b) ∧
      negValid w (negative_saturating_sub w a b) ∧
      posValid w (negative_saturating_mul w a b) ∧
      negValid w (negative_bitor w a b) ∧
      negValid w (negative_bitand w a b) ∧
      posValid w (negative_bitxor w a b)) ∧
    (∀ a : Int, negValid w a →
      optPosValid w (negative_checked_abs w a) ∧
      optPosValid w (negative_checked_neg w a) ∧
      posValid w (negative_saturating_abs w a) ∧
      posValid w (negative_saturating_neg w a) ∧
      posValid w (negative_not w a) ∧
      (∀ r : Int, intMin w ≤ r → r ≤ intMax w →
        negValid w (negative_bitor_base w a r) ∧
        (∀ res : Int, negative_checked_rem_euclid w a r = Except.ok (some res) →
          posValid w res))) ∧
    (∀ a b : Int, negValid w a → posValid w b →
      optNegValid w (negative_checked_mul_positive w a b) ∧
      negValid w (negative_saturating_mul_positive w a b) ∧
      negValid w (negative_bitor_positive w a b) ∧
      posValid w (negative_bitand_positive w a b) ∧
      negValid w (negative_bitxor_positive w a b) ∧
      negValid w (positive_bitxor_negative w b a)) ∧
    (∀ x : Int,
      optPosValid w (positive_try_from_int w x) ∧
      optNegValid w (negative_try_from_int w x)) ∧
    (∀ w2 : Nat, w ≤ w2 → ∀ a : Int,
      (posValid w a → posValid w2 (positive_widen a)) ∧
      (negValid w a → negValid w2 (negative_widen a))) ∧
    (∀ k n : Nat, k < w → n < 2 ^ k → posValid w (positive_from_unsigned n)) := by
  refine ⟨?_, ?_, ?_, ?_, ?_, ?_, ?_, ?_⟩
  · -- positive, same-type binary operations
    intro a b ha hb
    obtain ⟨ha1, ha2⟩ := ha
    obtain ⟨hb1, hb2⟩ := hb
    have hM := two_pow_pos_int (w - 1)
    refine ⟨?_, ?_, ?_, ?_, ?_, ?_, ?_, ?_, ?_, ?_, ?_⟩
    · unfold positive_checked_add i_checked_add
      by_cases hc : intMin w ≤ a + b ∧ a + b ≤ intMax w
      · rw [if_pos hc]
        show posValid w (a + b)
        exact ⟨by omega, hc.2⟩
      · rw [if_neg hc]
        trivial
    · exact positive_new_optValid w _ (iWrap_range w hw (a - b)).2
    · unfold positive_checked_mul i_checked_mul
      by_cases hc : intMin w ≤ a * b ∧ a * b ≤ intMax w
      · rw [if_pos hc]
        show posValid w (a * b)
        exact ⟨mul_nonneg ha1 hb1, hc.2⟩
      · rw [if_neg hc]
        trivial
    · unfold positive_checked_div i_checked_div
      by_cases hb0 : b = 0
      · rw [if_pos hb0]
        trivial
      · rw [if_neg hb0]
        by_cases hmin : a = intMin w ∧ b = -1
        · rw [if_pos hmin]
          trivial
        · rw [if_neg hmin]
          show posValid w (a.tdiv b)
          exact tdiv_posValid_of_pos w a b ⟨ha1, ha2⟩ (by omega)
    · unfold positive_checked_rem i_checked_rem
      by_cases hb0 : b = 0
      · rw [if_pos hb0]
        trivial
      · rw [if_neg hb0]
        by_cases hmin : a = intMin w ∧ b = -1
        · rw [if_pos hmin]
          trivial
        · rw [if_neg hmin]
          show posValid w (Int.tmod a b)
          exact tmod_posValid_of_pos w a b ⟨ha1, ha2⟩ ⟨hb1, hb2⟩ (by omega)
    · unfold positive_saturating_add i_saturating_add i_clamp
      split
      · rename_i h
        exact absurd h (by unfold intMin; omega)
      · split
        · exact ⟨intMax_nonneg w, le_refl _⟩
        · rename_i h1 h2
          exact ⟨by omega, by omega⟩
    · unfold positive_saturating_sub
      rcases hps : positive_new w (i_wrapping_sub w a b) with _ | n
      · simp only [hps]
        exact ⟨le_refl _, intMax_nonneg w⟩
      · simp only [hps]
        obtain ⟨hn, hx⟩ := positive_new_eq_some w _ n hps
        have hr := iWrap_range w hw (a - b)
        unfold i_wrapping_sub at hn
        rw [hn]
        exact ⟨hx, hr.2⟩
    · unfold positive_saturating_mul i_saturating_mul i_clamp
      split
      · rename_i h
        exact absurd h (by unfold intMin; have := mul_nonneg ha1 hb1; omega)
      · split
        · exact ⟨intMax_nonneg w, le_refl _⟩
        · rename_i h1 h2
          exact ⟨mul_nonneg ha1 hb1, by omega⟩
    · exact i_or_posValid_of_pos_pos w a b ⟨ha1, ha2⟩ ⟨hb1, hb2⟩
    · exact i_and_posValid_of_pos_pos w a b ⟨hb1, hb2⟩
    · exact i_xor_posValid_of_pos_pos_direct w a b ⟨ha1, ha2⟩ ⟨hb1, hb2⟩
  · -- positive, unary/heterogeneous operations
    intro a ha
    obtain ⟨ha1, ha2⟩ := ha
    have hM := two_pow_pos_int (w - 1)
    refine ⟨?_, ?_, ?_, ?_, ?_, ?_⟩
    · show optNegValid w (negative_new w (-a))
      apply negative_new_optValid
      unfold intMin
      unfold intMax at ha2
      omega
    · exact i_not_negValid w hw a ⟨ha1, ha2⟩
    · show optPosValid w (positive_new w (ofUns w (u_next_power_of_two w (toUns w a))))
      apply positive_new_optValid
      refine (ofUns_range w hw _ ?_).2
      unfold u_next_power_of_two
      exact Nat.mod_lt _ (Nat.two_pow_pos w)
    · intro e
      constructor
      · unfold positive_checked_pow i_checked_pow
        by_cases hc : intMin w ≤ a ^ e ∧ a ^ e ≤ intMax w
        · rw [if_pos hc]
          show posValid w (a ^ e)
          exact ⟨pow_nonneg ha1 e, hc.2⟩
        · rw [if_neg hc]
          trivial
      · unfold positive_saturating_pow i_saturating_pow i_clamp
        split
        · rename_i h
          exact absurd h (by unfold intMin; have := pow_nonneg ha1 e; omega)
        · split
          · exact ⟨intMax_nonneg w, le_refl _⟩
          · rename_i h1 h2
            exact ⟨pow_nonneg ha1 e, by omega⟩
    · intro r
      constructor
      · unfold positive_checked_div_unsigned u_checked_div
        by_cases hr : r = 0
        · rw [if_pos hr]
          trivial
        · rw [if_neg hr]
          show posValid w (ofUns w (toUns w a / r))
          obtain ⟨_, hlt⟩ := toUns_of_nonneg w a ha1 ha2
          refine (ofUns_posValid w _ ?_).2
          have := Nat.div_le_self (toUns w a) r
          omega
      · unfold positive_checked_rem_unsigned u_checked_rem
        by_cases hr : r = 0
        · rw [if_pos hr]
          trivial
        · rw [if_neg hr]
          show posValid w (ofUns w (toUns w a % r))
          obtain ⟨_, hlt⟩ := toUns_of_nonneg w a ha1 ha2
          refine (ofUns_posValid w _ ?_).2
          have := Nat.mod_le (toUns w a) r
          omega
    · intro r hr1 hr2
      exact i_and_posValid_left w hw a r ⟨ha1, ha2⟩
  · -- negative, same-type binary operations
    intro a b ha hb
    obtain ⟨ha1, ha2⟩ := ha
    obtain ⟨hb1, hb2⟩ := hb
    have hM := two_pow_pos_int (w - 1)
    refine ⟨?_, ?_, ?_, ?_, ?_, ?_, ?_, ?_, ?_, ?_, ?_⟩
    · unfold negative_checked_add i_checked_add
      by_cases hc : intMin w ≤ a + b ∧ a + b ≤ intMax w
      · rw [if_pos hc]
        show negValid w (a + b)
        exact ⟨hc.1, by omega⟩
      · rw [if_neg hc]
        trivial
    · exact negative_new_optValid w _ (iWrap_range w hw (a - b)).1
    · unfold negative_checked_mul i_checked_mul
      by_cases hc : intMin w ≤ a * b ∧ a * b ≤ intMax w
      · rw [if_pos hc]
        show posValid w (a * b)
        exact ⟨le_of_lt (mul_pos_of_neg_of_neg ha2 hb2), hc.2⟩
      · rw [if_neg hc]
        trivial
    · unfold negative_checked_div i_checked_div
      by_cases hb0 : b = 0
      · rw [if_pos hb0]
        trivial
      · rw [if_neg hb0]
        by_cases hmin : a = intMin w ∧ b = -1
        · rw [if_pos hmin]
          trivial
        · rw [if_neg hmin]
          show posValid w (a.tdiv b)
          exact tdiv_posValid_of_neg_neg w a b ⟨ha1, ha2⟩ ⟨hb1, hb2⟩ hmin
    · unfold negative_checked_div_euclid i_checked_div_euclid
      by_cases hb0 : b = 0
      · rw [if_pos hb0]
        trivial
      · rw [if_neg hb0]
        by_cases hmin : a = intMin w ∧ b = -1
        · rw [if_pos hmin]
          trivial
        · rw [if_neg hmin]
          show posValid w (a / b)
          exact ediv_posValid_of_neg_neg w a b ⟨ha1, ha2⟩ ⟨hb1, hb2⟩ hmin
    · unfold negative_saturating_add i_saturating_add i_clamp
      split
      · exact ⟨le_refl _, by unfold intMin; omega⟩
      · split
        · rename_i h1 h2
          exact absurd h2 (by have := intMax_nonneg w; omega)
        · rename_i h1 h2
          exact ⟨by omega, by omega⟩
    · unfold negative_saturating_sub
      rcases hps : negative_new w (i_wrapping_sub w a b) with _ | n
      · simp only [hps]
        show negValid w (-1)
        exact ⟨by unfold intMin; omega, by norm_num⟩
      · simp only [hps]
        obtain ⟨hn, hx⟩ := negative_new_eq_some w _ n hps
        have hr := iWrap_range w hw (a - b)
        unfold i_wrapping_sub at hn
        rw [hn]
        exact ⟨hr.1, hx⟩
    · unfold negative_saturating_mul i_saturating_mul i_clamp
      split
      · rename_i h
        exact absurd h
          (by unfold intMin; have := mul_pos_of_neg_of_neg ha2 hb2; omega)
      · split
        · exact ⟨intMax_nonneg w, le_refl _⟩
        · rename_i h1 h2
          exact ⟨le_of_lt (mul_pos_of_neg_of_neg ha2 hb2), by omega⟩
    · exact i_or_negValid_left w hw a b ⟨ha1, ha2⟩
    · exact i_and_negValid w hw a b ⟨ha1, ha2⟩ ⟨hb1, hb2⟩
    · exact i_xor_posValid_of_neg_neg w hw a b ⟨ha1, ha2⟩ ⟨hb1, hb2⟩
  · -- negative, unary/heterogeneous operations
    intro a ha
    obtain ⟨ha1, ha2⟩ := ha
    have hM := two_pow_pos_int (w - 1)
    refine ⟨?_, ?_, ?_, ?_, ?_, ?_⟩
    · unfold negative_checked_abs i_checked_abs
      by_cases hmin : a = intMin w
      · rw [if_pos hmin]
        trivial
      · rw [if_neg hmin]
        show posValid w (if a < 0 then -a else a)
        rw [if_pos ha2]
        refine ⟨by omega, ?_⟩
        unfold intMax
        unfold intMin at ha1 hmin
        omega
    · unfold negative_checked_neg i_checked_neg
      by_cases hmin : a = intMin w
      · rw [if_pos hmin]
        trivial
      · rw [if_neg hmin]
        show posValid w (-a)
        refine ⟨by omega, ?_⟩
        unfold intMax
        unfold intMin at ha1 hmin
        omega
    · unfold negative_saturating_abs i_saturating_abs
      by_cases hmin : a = intMin w
      · rw [if_pos hmin]
        exact ⟨intMax_nonneg w, le_refl _⟩
      · rw [if_neg hmin, if_pos ha2]
        refine ⟨by omega, ?_⟩
        unfold intMax
        unfold intMin at ha1 hmin
        omega
    · unfold negative_saturating_neg i_saturating_neg
      by_cases hmin : a = intMin w
      · rw [if_pos hmin]
        exact ⟨intMax_nonneg w, le_refl _⟩
      · rw [if_neg hmin]
        refine ⟨by omega, ?_⟩
        unfold intMax
        unfold intMin at ha1 hmin
        omega
    · exact i_not_posValid w hw a ⟨ha1, ha2⟩
    · intro r hr1 hr2
      constructor
      · exact i_or_negValid_left w hw a r ⟨ha1, ha2⟩
      · intro res h
        unfold negative_checked_rem_euclid i_rem_euclid at h
        by_cases hr0 : r = 0
        · rw [if_pos hr0] at h
          cases h
        · rw [if_neg hr0] at h
          by_cases hmin : a = intMin w ∧ r = -1
          · rw [if_pos hmin] at h
            cases h
          · rw [if_neg hmin] at h
            have hres : Except.ok (some (a % r)) = Except.ok (some res) := h
            obtain rfl : a % r = res := by
              injection hres with h1
              injection h1
            refine ⟨Int.emod_nonneg a hr0, ?_⟩
            rcases lt_or_le r 0 with hneg | hpos2
            · have hlt : a % r < -r := by
                have h2 := Int.emod_lt_of_pos a (show (0 : Int) < -r by omega)
                rwa [Int.emod_neg] at h2
              unfold intMax
              unfold intMin at hr1
              omega
            · have hlt : a % r < r := Int.emod_lt_of_pos a (by omega)
              unfold intMax at hr2 ⊢
              omega
  · -- negative × positive operations
    intro a b ha hb
    obtain ⟨ha1, ha2⟩ := ha
    obtain ⟨hb1, hb2⟩ := hb
    have hM := two_pow_pos_int (w - 1)
    refine ⟨?_, ?_, ?_, ?_, ?_, ?_⟩
    · unfold negative_checked_mul_positive i_checked_mul
      by_cases hc : intMin w ≤ a * b ∧ a * b ≤ intMax w
      · rw [if_pos hc]
        show optNegValid w (negative_new w (a * b))
        exact negative_new_optValid w _ hc.1
      · rw [if_neg hc]
        trivial
    · unfold negative_saturating_mul_positive
      rcases hps : negative_new w (i_saturating_mul w a b) with _ | n
      · simp only [hps]
        show negValid w (-1)
        exact ⟨by unfold intMin; omega, by norm_num⟩
      · simp only [hps]
        obtain ⟨hn, hx⟩ := negative_new_eq_some w _ n hps
        have hr := i_clamp_range w (a * b)
        unfold i_saturating_mul at hn
        rw [hn]
        exact ⟨hr.1, hx⟩
    · exact i_or_negValid_left w hw a b ⟨ha1, ha2⟩
    · exact i_and_posValid_right w hw a b ⟨hb1, hb2⟩
    · exact i_xor_negValid_of_neg_pos w hw a b ⟨ha1, ha2⟩ ⟨hb1, hb2⟩
    · exact i_xor_negValid_of_pos_neg w hw b a ⟨hb1, hb2⟩ ⟨ha1, ha2⟩
  · -- conversions through TryFrom
    intro x
    constructor
    · unfold positive_try_from_int
      by_cases h1 : x < 0
      · rw [if_pos h1]
        trivial
      · rw [if_neg h1]
        by_cases h2 : intMax w < x
        · rw [if_pos h2]
          trivial
        · rw [if_neg h2]
          exact ⟨by omega, by omega⟩
    · unfold negative_try_from_int
      by_cases h1 : x < intMin w
      · rw [if_pos h1]
        trivial
      · rw [if_neg h1]
        by_cases h2 : intMax w < x
        · rw [if_pos h2]
          trivial
        · rw [if_neg h2]
          exact negative_new_optValid w x (by omega)
  · -- same-polarity widening conversions
    intro w2 hle a
    have hmono : (2 : Int) ^ (w - 1) ≤ 2 ^ (w2 - 1) :=
      pow_le_pow_right₀ (by norm_num) (by omega)
    constructor
    · intro ha
      obtain ⟨h1, h2⟩ := ha
      refine ⟨h1, ?_⟩
      unfold positive_widen
      unfold intMax at h2 ⊢
      omega
    · intro ha
      obtain ⟨h1, h2⟩ := ha
      refine ⟨?_, h2⟩
      unfold negative_widen
      unfold intMin at h1 ⊢
      omega
  · -- infallible conversion from a strictly narrower unsigned primitive
    intro k n hk hn
    have hmono : (2 : Nat) ^ k ≤ 2 ^ (w - 1) := Nat.pow_le_pow_right (by norm_num) (by omega)
    have hc1 := natCast_two_pow (w - 1)
    unfold positive_from_unsigned
    refine ⟨by omega, ?_⟩
    unfold intMax
    omega

/-- Witness for C1 at width 8 on sample operations and inputs. -/
theorem polarity_invariant_witness :
    optPosValid 8 (positive_checked_add 8 3 5) ∧
    negValid 8 (negative_bitor_positive 8 (-1) 5) ∧
    posValid 8 (positive_saturating_add 8 100 100) ∧
    optPosValid 8 (negative_checked_div 8 (-100) (-1)) := by
  have h := polarity_invariant 8 (by decide)
  exact ⟨(h.1 3 5 (by decide) (by decide)).1,
    (h.2.2.2.2.1 (-1) 5 (by decide) (by decide)).2.2.1,
    (h.1 100 100 (by decide) (by decide)).2.2.2.2.2.1,
    (h.2.2.1 (-100) (-1) (by decide) (by decide)).2.2.2.1⟩
